import Mathlib

/-!
Shallow embedding of the relay-test repository's core algorithms
(waveform analysis, oscilloscope waveform capture and framing,
capture orchestration, Tasmota relay control) together with proofs
of the specification's claims about them.

Python floats are modelled as exact rationals (`ℚ`), numpy arrays as
`List ℚ`, byte strings as `List ℕ` (each element a byte value).
-/

attribute [local semireducible] Rat.add Rat.mul Rat.sub Rat.inv

namespace Onnyx

/-! ### Waveform analysis (`waveform_utils.py`) -/

/-- `np.mean` over a list of rationals (0 for the empty list, where numpy
would produce NaN; `analyze_waveform` never succeeds on inputs that hit
that case). -/
def meanQ (xs : List ℚ) : ℚ := xs.sum / xs.length

/-- Indexing `v[i]` with default 0; all uses are in-bounds. -/
def vAt (v : List ℚ) (i : ℕ) : ℚ := v.getD i 0

/-- Python `v[-n:]`: the last `n` elements (whole list when shorter). -/
def lastN (n : ℕ) (v : List ℚ) : List ℚ := v.drop (v.length - n)

/-- Result dictionary of `analyze_waveform` (success case). -/
structure WaveResult where
  is_rising : Bool
  transition_time : ℚ
  bounce_count : ℕ
  bounce_duration : ℚ
  start_voltage : ℚ
  end_voltage : ℚ
  low_threshold : ℚ
  high_threshold : ℚ
  start_idx : ℕ
  end_idx : ℕ
  bounce_regions : List (ℕ × ℕ)
  deriving Repr, DecidableEq

/-- The bounce-region opening test at index `i`:
rising: `voltage[i] < thr and voltage[i-1] >= thr`;
falling: `voltage[i] > thr and voltage[i-1] <= thr`. -/
def bounceOpenB (v : List ℚ) (thr : ℚ) (is_rising : Bool) (i : ℕ) : Bool :=
  if is_rising then decide (vAt v i < thr ∧ thr ≤ vAt v (i - 1))
  else decide (thr < vAt v i ∧ vAt v (i - 1) ≤ thr)

/-- The bounce-region closing test at index `i`:
rising: `voltage[i] >= thr and voltage[i-1] < thr`;
falling: `voltage[i] <= thr and voltage[i-1] > thr`. -/
def bounceCloseB (v : List ℚ) (thr : ℚ) (is_rising : Bool) (i : ℕ) : Bool :=
  if is_rising then decide (thr ≤ vAt v i ∧ vAt v (i - 1) < thr)
  else decide (vAt v i ≤ thr ∧ thr < vAt v (i - 1))

/-- One iteration of the `detect_bounce` loop body at index `i`.
State is `(bounce_regions, bounce_count, bounce_start)`.  `thr` is
`high_threshold` for a rising transition and `low_threshold` for a
falling one, matching the two branches of the Python loop. -/
def bounceStep (v : List ℚ) (thr : ℚ) (is_rising : Bool)
    (st : List (ℕ × ℕ) × ℕ × ℕ) (i : ℕ) : List (ℕ × ℕ) × ℕ × ℕ :=
  let cb :=
    if bounceOpenB v thr is_rising i
    then (st.2.1 + 1, i) else (st.2.1, st.2.2)
  let regs :=
    if decide (0 < cb.1) && bounceCloseB v thr is_rising i
    then st.1 ++ [(cb.2, i)] else st.1
  (regs, cb)

/-- `detect_bounce(voltage, time, end_idx, high_threshold, low_threshold,
is_rising)`: scans indices `end_idx+1 .. len(voltage)-2` (Python
`range(end_idx+1, len(voltage)-1)`) and collects closed bounce regions. -/
def detect_bounce (voltage : List ℚ) (time : List ℚ) (end_idx : ℕ)
    (high_threshold low_threshold : ℚ) (is_rising : Bool) : List (ℕ × ℕ) :=
  let _ := time
  let thr := if is_rising then high_threshold else low_threshold
  ((List.range' (end_idx + 1) (voltage.length - end_idx - 2)).foldl
    (bounceStep voltage thr is_rising) ([], 0, 0)).1

/-- `start_voltage = np.mean(voltage[:10])`. -/
def startVoltage (voltage : List ℚ) : ℚ := meanQ (voltage.take 10)

/-- `end_voltage = np.mean(voltage[-10:])`. -/
def endVoltage (voltage : List ℚ) : ℚ := meanQ (lastN 10 voltage)

/-- `is_rising = end_voltage > start_voltage`. -/
def isRising (voltage : List ℚ) : Bool :=
  decide (startVoltage voltage < endVoltage voltage)

/-- `low_threshold = v_min + 0.1 * v_range`. -/
def lowThreshold (voltage : List ℚ) : ℚ :=
  let v_min := min (startVoltage voltage) (endVoltage voltage)
  let v_max := max (startVoltage voltage) (endVoltage voltage)
  v_min + (1 / 10 : ℚ) * (v_max - v_min)

/-- `high_threshold = v_min + 0.9 * v_range`. -/
def highThreshold (voltage : List ℚ) : ℚ :=
  let v_min := min (startVoltage voltage) (endVoltage voltage)
  let v_max := max (startVoltage voltage) (endVoltage voltage)
  v_min + (9 / 10 : ℚ) * (v_max - v_min)

/-- `start_idx`: `np.where(voltage > low_threshold)[0][0]` when rising,
`np.where(voltage < high_threshold)[0][0]` when falling;
`none` models the `IndexError`. -/
def startIdx? (voltage : List ℚ) : Option ℕ :=
  if isRising voltage then
    voltage.findIdx? (fun x => decide (lowThreshold voltage < x))
  else
    voltage.findIdx? (fun x => decide (x < highThreshold voltage))

/-- `end_idx`: `np.where(voltage > high_threshold)[0][0]` when rising,
`np.where(voltage < low_threshold)[0][0]` when falling. -/
def endIdx? (voltage : List ℚ) : Option ℕ :=
  if isRising voltage then
    voltage.findIdx? (fun x => decide (highThreshold voltage < x))
  else
    voltage.findIdx? (fun x => decide (x < lowThreshold voltage))

/-- The success-case result dictionary of `analyze_waveform` (lines 75-87). -/
def mkResult (time voltage : List ℚ) (start_idx end_idx : ℕ) : WaveResult :=
  let bounce_regions :=
    detect_bounce voltage time end_idx (highThreshold voltage)
      (lowThreshold voltage) (isRising voltage)
  { is_rising := isRising voltage
    transition_time := vAt time end_idx - vAt time start_idx
    bounce_count := bounce_regions.length
    bounce_duration :=
      (bounce_regions.map (fun r => vAt time r.2 - vAt time r.1)).sum
    start_voltage := startVoltage voltage
    end_voltage := endVoltage voltage
    low_threshold := lowThreshold voltage
    high_threshold := highThreshold voltage
    start_idx := start_idx
    end_idx := end_idx
    bounce_regions := bounce_regions }

/-- `analyze_waveform(time, voltage)`: `none` models the
"Could not find threshold crossings" error dictionary. -/
def analyze_waveform (time voltage : List ℚ) : Option WaveResult :=
  match startIdx? voltage, endIdx? voltage with
  | some start_idx, some end_idx => some (mkResult time voltage start_idx end_idx)
  | _, _ => none

/-- Specification-side description of the bounce scan (claim C4's
wording): the scan runs over indices strictly after `end_idx`; a region
closes at `i` when the closing test holds and some opening index `j ≤ i`
exists in the scanned range; its start is the latest such opening index. -/
def specBounceRegions (v : List ℚ) (thr : ℚ) (is_rising : Bool)
    (end_idx k : ℕ) : List (ℕ × ℕ) :=
  (List.range' (end_idx + 1) k).filterMap (fun i =>
    if bounceCloseB v thr is_rising i ∧
        (List.range' (end_idx + 1) (i - end_idx)).filter
          (bounceOpenB v thr is_rising) ≠ [] then
      some ((((List.range' (end_idx + 1) (i - end_idx)).filter
        (bounceOpenB v thr is_rising)).getLastD 0), i)
    else none)

/-! ### Concrete waveforms used as witnesses and counterexamples -/

/-- An ideal instantaneous 0V→5V step: ten 0V samples then ten 5V samples. -/
def stepVolt : List ℚ := List.replicate 10 0 ++ List.replicate 10 5

/-- Uniform time base 0,1,…,19 for `stepVolt`. -/
def stepTime : List ℚ := (List.range 20).map (fun i => (i : ℚ))

/-- A rising step followed by three dips below the 4.5V high threshold,
each recovering before the data ends, then a settled 5V tail. -/
def bounceVolt : List ℚ :=
  List.replicate 10 0 ++ [5, 5, 0, 5, 5, 0, 0, 5, 5, 1, 5] ++ List.replicate 10 5

/-- Uniform time base 0,1,…,30 for `bounceVolt`. -/
def bounceTime : List ℚ := (List.range 31).map (fun i => (i : ℚ))

/-- A gradual 0→19 ramp (rising, crossings at interior indices). -/
def rampVolt : List ℚ := (List.range 20).map (fun i => (i : ℚ))

/-- Expected analysis result for `stepTime`/`stepVolt`. -/
def stepResult : WaveResult :=
  { is_rising := true, transition_time := 0, bounce_count := 0,
    bounce_duration := 0, start_voltage := 0, end_voltage := 5,
    low_threshold := 1 / 2, high_threshold := 9 / 2,
    start_idx := 10, end_idx := 10, bounce_regions := [] }

/-- Expected analysis result for `stepTime`/`rampVolt`. -/
def rampResult : WaveResult :=
  { is_rising := true, transition_time := 8, bounce_count := 0,
    bounce_duration := 0, start_voltage := 9 / 2, end_voltage := 29 / 2,
    low_threshold := 11 / 2, high_threshold := 27 / 2,
    start_idx := 6, end_idx := 14, bounce_regions := [] }

/-- Expected analysis result for `bounceTime`/`bounceVolt`: three bounce
regions of durations 1, 2 and 1 sample periods. -/
def bounceResult : WaveResult :=
  { is_rising := true, transition_time := 0, bounce_count := 3,
    bounce_duration := 4, start_voltage := 0, end_voltage := 5,
    low_threshold := 1 / 2, high_threshold := 9 / 2,
    start_idx := 10, end_idx := 10,
    bounce_regions := [(12, 13), (15, 17), (19, 20)] }

/-! ### Binary waveform block framing (`rigol_driver.py capture_waveform`) -/

/-- ASCII decimal digit test. -/
def isDigitByte (b : ℕ) : Bool := decide (48 ≤ b ∧ b ≤ 57)

/-- Python `int()` on an ASCII byte string: the value of a nonempty
all-digit string; `none` models `ValueError`. -/
def decVal? (bs : List ℕ) : Option ℕ :=
  if bs ≠ [] ∧ bs.all isDigitByte = true then
    some (bs.foldl (fun a b => 10 * a + (b - 48)) 0)
  else none

/-- `int` of the single byte `response[hp+1:hp+2]`. -/
def digitVal? (b : ℕ) : Option ℕ := decVal? [b]

/-- State of the chunked read loop: accumulated `response`,
`header_read` flag and parsed `data_length`. -/
structure RecvState where
  response : List ℕ
  headerRead : Bool
  dataLength : ℕ
  deriving Repr, DecidableEq

/-- One iteration of the read loop (lines 278-297): append the chunk and
attempt to parse the `#`-header.  `none` models the `ValueError` branch
that aborts the capture. -/
def stepChunk (s : RecvState) (c : List ℕ) : Option RecvState :=
  let resp := s.response ++ c
  if s.headerRead = false ∧ 35 ∈ resp then
    let hp := resp.indexOf 35
    if hp + 2 < resp.length then
      match digitVal? (resp.getD (hp + 1) 0) with
      | none => none
      | some d =>
        if hp + 2 + d ≤ resp.length then
          match decVal? ((resp.drop (hp + 2)).take d) with
          | none => none
          | some n => some ⟨resp, true, n⟩
        else some ⟨resp, false, s.dataLength⟩
    else some ⟨resp, false, s.dataLength⟩
  else some ⟨resp, s.headerRead, s.dataLength⟩

/-- The `while True` read loop (lines 273-303).  The chunk list holds the
successive `recv` results; an empty chunk (or exhausting the list) models
the socket reporting no more data, which breaks the loop.  The loop also
breaks once the header is read and `len(response) >= data_length + 11`. -/
def runRead : List (List ℕ) → RecvState → Option RecvState
  | [], s => some s
  | c :: cs, s =>
    if c = [] then some s
    else
      match stepChunk s c with
      | none => none
      | some s' =>
        if s'.headerRead = true ∧ s'.dataLength + 11 ≤ s'.response.length then some s'
        else runRead cs s'

/-- Payload extraction after the loop (lines 306-310): re-locate the
header and slice out exactly `data_length` bytes. -/
def extractPayload (s : RecvState) : Option (List ℕ) :=
  if s.headerRead = true then
    let hp := s.response.indexOf 35
    match digitVal? (s.response.getD (hp + 1) 0) with
    | none => none
    | some d => some ((s.response.drop (hp + 2 + d)).take s.dataLength)
  else none

/-- The data phase of `capture_waveform`: run the read loop on the given
`recv` chunks and extract the payload bytes. -/
def capturePayload (chunks : List (List ℕ)) : Option (List ℕ) :=
  match runRead chunks ⟨[], false, 0⟩ with
  | none => none
  | some s => extractPayload s

/-- ASCII digits of `n`, zero-padded to width `d`, most significant first. -/
def decDigits : ℕ → ℕ → List ℕ
  | 0, _ => []
  | d + 1, n => decDigits d (n / 10) ++ [48 + n % 10]

/-- A well-formed binary waveform block: `#` marker, one digit `d`, `d`
decimal digits of the payload byte count, then the payload. -/
def mkFrame (d : ℕ) (payload : List ℕ) : List ℕ :=
  35 :: (48 + d) :: (decDigits d payload.length ++ payload)

/-- Waveform preamble scaling fields (lines 251-258). -/
structure Preamble where
  x_increment : ℚ
  x_origin : ℚ
  y_increment : ℚ
  y_origin : ℚ
  y_reference : ℚ
  deriving Repr, DecidableEq

/-- The preamble used by the specification's round-trip example. -/
def samplePre : Preamble :=
  { x_increment := 1 / 1000000, x_origin := 0, y_increment := 1 / 100,
    y_origin := 0, y_reference := 128 }

/-- Engineering-unit conversion (lines 313-319):
`time_axis = arange(len(waveform)) * x_increment + x_origin` and
`voltage_axis = (waveform - y_reference) * y_increment + y_origin`,
paired into rows by `np.column_stack`. -/
def scaleWaveform (pre : Preamble) (codes : List ℕ) : List (ℚ × ℚ) :=
  (List.range codes.length).map (fun (i : ℕ) =>
    ((i : ℚ) * pre.x_increment + pre.x_origin,
     (((codes.getD i 0 : ℕ) : ℚ) - pre.y_reference) * pre.y_increment + pre.y_origin))

/-- The data path of `capture_waveform` after the preamble query:
chunked block read, byte decode, preamble scaling. -/
def capture_waveform (pre : Preamble) (chunks : List (List ℕ)) :
    Option (List (ℚ × ℚ)) :=
  (capturePayload chunks).map (scaleWaveform pre)

/-! ### Capture orchestration (`scope.py capture_relay_transition`) -/

/-- Environment of one `capture_relay_transition` run: whether the
fault-injection branch fires, the `tasmota.set_power` result, the
successive trigger-status polls within the timeout window (`true` means
the query returned `STOP`), and the `capture_waveform` result. -/
structure CaptureEnv (W : Type) where
  simulateFailure : Bool
  actuationOk : Bool
  polls : List Bool
  wave : Option W

/-- `capture_relay_transition` (scope.py lines 271-334): actuation
failure, trigger timeout and capture failure all return `None`. -/
def capture_relay_transition {W : Type} (env : CaptureEnv W) : Option W :=
  if env.simulateFailure = false ∧ env.actuationOk = false then none
  else if env.polls.any id then env.wave
  else none

/-! ### Instrument link (`rigol_driver.py send_command` / `query`) -/

/-- Outcome of `socket.sendall`. -/
inductive SendOutcome
  | ok
  | exn
  deriving Repr, DecidableEq

/-- One `socket.recv` outcome inside `query`'s read loop.  Text is
modelled as `List Char` (byte decoding is the identity at this level). -/
inductive RecvEvent
  | chunk (s : List Char)
  | closed
  | timeoutExn
  | exn
  deriving Repr, DecidableEq

/-- Transport environment for one `send_command`/`query` call. -/
structure LinkEnv where
  connected : Bool
  sendOutcome : SendOutcome
  recvEvents : List RecvEvent

/-- Python `text.endswith("\n")`. -/
def endsWithNl (s : List Char) : Bool := decide (s.getLast? = some '\n')

/-- Python `text.strip()`: drop whitespace from both ends. -/
def stripChars (s : List Char) : List Char :=
  ((s.dropWhile Char.isWhitespace).reverse.dropWhile Char.isWhitespace).reverse

/-- `send_command(command)` (lines 96-119): returns the success flag and
the text handed to `sendall` (`none` when nothing was attempted).  Every
exception path is an explicit branch returning `false`. -/
def send_command (env : LinkEnv) (command : List Char) :
    Bool × Option (List Char) :=
  if env.connected = false then (false, none)
  else
    let payload := if endsWithNl command then command else command ++ ['\n']
    match env.sendOutcome with
    | .ok => (true, some payload)
    | .exn => (false, some payload)

/-- The read loop of `query` (lines 141-157): accumulate chunks until the
response ends with the terminator, the socket closes or times out, or
the wall-clock window ends (exhausting the event list).  `none` models a
non-timeout exception reaching the outer handler. -/
def readResponse : List RecvEvent → List Char → Option (List Char)
  | [], acc => some acc
  | e :: es, acc =>
    match e with
    | .closed => some acc
    | .timeoutExn => some acc
    | .exn => none
    | .chunk c =>
      let acc' := acc ++ c
      if endsWithNl acc' then some acc' else readResponse es acc'

/-- `query(command)` (lines 121-169): send, then read; returns the
stripped decoded text, or `None` on a failed send, an empty response, or
an exception. -/
def query (env : LinkEnv) (command : List Char) : Option (List Char) :=
  if (send_command env command).1 = false then none
  else
    match readResponse env.recvEvents [] with
    | none => none
    | some resp => if resp = [] then none else some (stripChars resp)

/-! ### Relay control (`tasmota_driver.py set_power` / `get_power_state`) -/

/-- A relay state-change command `Power{n} ON|OFF`. -/
inductive TasmotaCmd
  | powerSet (relay : ℕ) (turnOn : Bool)
  deriving Repr, DecidableEq

/-- Environment for one `set_power` call, with `get_power_state`
abstracted as the read-only oracles `current` (before the command) and
`verify` (the fallback check after it); `none` is the Unknown state. -/
structure TasmotaEnv where
  current : Option Bool
  responseTruthy : Bool
  hasRaw : Bool
  patternMatched : Bool
  verify : Option Bool
  deriving Repr, DecidableEq

/-- `set_power(state, relay_number)` (lines 333-419): returns the boolean
result together with the state-change commands issued. -/
def set_power (env : TasmotaEnv) (state : Bool) (relay_number : ℕ) :
    Bool × List TasmotaCmd :=
  let shortCircuit :=
    match env.current with
    | some c => (c && state) || (!c && !state)
    | none => false
  if shortCircuit then (true, [])
  else
    let sent := [TasmotaCmd.powerSet relay_number state]
    if env.responseTruthy then
      if env.hasRaw && env.patternMatched then (true, sent)
      else
        match env.verify with
        | some v => if (v && state) || (!v && !state) then (true, sent) else (false, sent)
        | none => (false, sent)
    else (false, sent)

/-! ## Helper lemmas for the waveform analysis -/

theorem analyze_waveform_eq_some_iff {time voltage : List ℚ} {r : WaveResult} :
    analyze_waveform time voltage = some r ↔
      ∃ s e, startIdx? voltage = some s ∧ endIdx? voltage = some e ∧
        r = mkResult time voltage s e := by
  cases hs : startIdx? voltage <;> cases he : endIdx? voltage <;>
    simp [analyze_waveform, hs, he, eq_comm]

theorem analyze_waveform_eq_none_iff {time voltage : List ℚ} :
    analyze_waveform time voltage = none ↔
      startIdx? voltage = none ∨ endIdx? voltage = none := by
  cases hs : startIdx? voltage <;> cases he : endIdx? voltage <;>
    simp [analyze_waveform, hs, he]

theorem lowThreshold_le_highThreshold (voltage : List ℚ) :
    lowThreshold voltage ≤ highThreshold voltage := by
  have h : min (startVoltage voltage) (endVoltage voltage) ≤
      max (startVoltage voltage) (endVoltage voltage) := min_le_max
  unfold lowThreshold highThreshold
  linarith

theorem startIdx_le_endIdx {voltage : List ℚ} {s e : ℕ}
    (hs : startIdx? voltage = some s) (he : endIdx? voltage = some e) :
    s ≤ e := by
  unfold startIdx? at hs
  unfold endIdx? at he
  by_cases hr : isRising voltage = true
  · rw [if_pos hr] at hs he
    have mono : ∀ x ∈ voltage,
        (fun x => decide (highThreshold voltage < x)) x →
        (fun x => decide (lowThreshold voltage < x)) x := by
      intro x hx hpx
      simp only [decide_eq_true_eq] at hpx ⊢
      exact lt_of_le_of_lt (lowThreshold_le_highThreshold voltage) hpx
    obtain ⟨j, hj, hq⟩ := List.findIdx?_eq_some_le_of_findIdx?_eq_some mono he
    rw [hs] at hq
    injection hq with hq
    omega
  · rw [if_neg hr] at hs he
    have mono : ∀ x ∈ voltage,
        (fun x => decide (x < lowThreshold voltage)) x →
        (fun x => decide (x < highThreshold voltage)) x := by
      intro x hx hpx
      simp only [decide_eq_true_eq] at hpx ⊢
      exact lt_of_lt_of_le hpx (lowThreshold_le_highThreshold voltage)
    obtain ⟨j, hj, hq⟩ := List.findIdx?_eq_some_le_of_findIdx?_eq_some mono he
    rw [hs] at hq
    injection hq with hq
    omega

theorem findIdx?_decide_eq_some_iff {p : ℚ → Prop} [DecidablePred p]
    {v : List ℚ} {i : ℕ} :
    v.findIdx? (fun x => decide (p x)) = some i ↔
      i < v.length ∧ p (vAt v i) ∧ ∀ j, j < i → ¬ p (vAt v j) := by
  rw [List.findIdx?_eq_some_iff_getElem]
  constructor
  · rintro ⟨h, h1, h2⟩
    refine ⟨h, ?_, fun j hj => ?_⟩
    · have h1' := of_decide_eq_true h1
      simp only [vAt]
      rwa [List.getD_eq_getElem _ _ h]
    · have h2' := h2 j hj
      simp only [decide_eq_true_eq] at h2'
      simp only [vAt]
      rwa [List.getD_eq_getElem _ _ (lt_trans hj h)]
  · rintro ⟨h, h1, h2⟩
    refine ⟨h, ?_, fun j hj => ?_⟩
    · simp only [vAt] at h1
      rw [List.getD_eq_getElem _ _ h] at h1
      simpa using h1
    · have h2' := h2 j hj
      simp only [vAt] at h2'
      rw [List.getD_eq_getElem _ _ (lt_trans hj h)] at h2'
      simpa using h2'

/-! ## Claims about the waveform analysis invariants -/

/-- C1: for equal-length sample arrays, a successful `analyze_waveform`
classifies the transition as rising iff the mean of the last 10 voltages
exceeds the mean of the first 10, sets the 10%/90% thresholds from
min/max of the two means, picks `start_index`/`end_index` as the first
threshold crossings (mirrored for falling), and sets `transition_time =
time[end_index] - time[start_index]`; it fails with the
no-threshold-crossing error iff either crossing search exhausts the
sequence. -/
theorem C1_analyze_characterization (time voltage : List ℚ)
    (hlen : time.length = voltage.length) :
    (∀ r, analyze_waveform time voltage = some r →
      (r.is_rising = true ↔ meanQ (voltage.take 10) < meanQ (lastN 10 voltage)) ∧
      r.low_threshold =
        min (meanQ (voltage.take 10)) (meanQ (lastN 10 voltage)) +
          (1 / 10 : ℚ) *
            (max (meanQ (voltage.take 10)) (meanQ (lastN 10 voltage)) -
              min (meanQ (voltage.take 10)) (meanQ (lastN 10 voltage))) ∧
      r.high_threshold =
        min (meanQ (voltage.take 10)) (meanQ (lastN 10 voltage)) +
          (9 / 10 : ℚ) *
            (max (meanQ (voltage.take 10)) (meanQ (lastN 10 voltage)) -
              min (meanQ (voltage.take 10)) (meanQ (lastN 10 voltage))) ∧
      (r.is_rising = true →
        (r.start_idx < voltage.length ∧
          r.low_threshold < vAt voltage r.start_idx ∧
          ∀ j, j < r.start_idx → vAt voltage j ≤ r.low_threshold) ∧
        (r.end_idx < voltage.length ∧
          r.high_threshold < vAt voltage r.end_idx ∧
          ∀ j, j < r.end_idx → vAt voltage j ≤ r.high_threshold)) ∧
      (r.is_rising = false →
        (r.start_idx < voltage.length ∧
          vAt voltage r.start_idx < r.high_threshold ∧
          ∀ j, j < r.start_idx → r.high_threshold ≤ vAt voltage j) ∧
        (r.end_idx < voltage.length ∧
          vAt voltage r.end_idx < r.low_threshold ∧
          ∀ j, j < r.end_idx → r.low_threshold ≤ vAt voltage j)) ∧
      r.transition_time = vAt time r.end_idx - vAt time r.start_idx) ∧
    (analyze_waveform time voltage = none ↔
      (isRising voltage = true ∧
        ((∀ x ∈ voltage, x ≤ lowThreshold voltage) ∨
          (∀ x ∈ voltage, x ≤ highThreshold voltage))) ∨
      (isRising voltage = false ∧
        ((∀ x ∈ voltage, highThreshold voltage ≤ x) ∨
          (∀ x ∈ voltage, lowThreshold voltage ≤ x)))) := by
  constructor
  · intro r h
    obtain ⟨s, e, hs, he, rfl⟩ := analyze_waveform_eq_some_iff.mp h
    unfold startIdx? at hs
    unfold endIdx? at he
    by_cases hr : isRising voltage = true
    · rw [if_pos hr] at hs he
      have H1 := findIdx?_decide_eq_some_iff.mp hs
      have H2 := findIdx?_decide_eq_some_iff.mp he
      have hsv : startVoltage voltage < endVoltage voltage := by
        unfold isRising at hr
        exact of_decide_eq_true hr
      refine ⟨?_, ?_, ?_, ?_, ?_, ?_⟩
      · simp [mkResult, isRising, startVoltage, endVoltage, lastN]
      · simp [mkResult, lowThreshold, startVoltage, endVoltage, lastN]
      · simp [mkResult, highThreshold, startVoltage, endVoltage, lastN]
      · intro _
        refine ⟨⟨?_, ?_, fun j hj => ?_⟩, ⟨?_, ?_, fun j hj => ?_⟩⟩
        · simpa [mkResult] using H1.1
        · simpa [mkResult] using H1.2.1
        · have := H1.2.2 j (by simpa [mkResult] using hj)
          simpa [mkResult, not_lt] using this
        · simpa [mkResult] using H2.1
        · simpa [mkResult] using H2.2.1
        · have := H2.2.2 j (by simpa [mkResult] using hj)
          simpa [mkResult, not_lt] using this
      · intro hfalse
        exact absurd (by simpa [mkResult] using hfalse)
          (by simp [hr])
      · simp [mkResult]
    · rw [if_neg hr] at hs he
      have H1 := findIdx?_decide_eq_some_iff.mp hs
      have H2 := findIdx?_decide_eq_some_iff.mp he
      have hrf : isRising voltage = false := by
        cases hv : isRising voltage with
        | false => rfl
        | true => exact absurd hv hr
      have hsv : ¬ startVoltage voltage < endVoltage voltage := by
        unfold isRising at hrf
        exact of_decide_eq_false hrf
      refine ⟨?_, ?_, ?_, ?_, ?_, ?_⟩
      · simp [mkResult, hrf]
        simpa [startVoltage, endVoltage, not_lt] using hsv
      · simp [mkResult, lowThreshold, startVoltage, endVoltage, lastN]
      · simp [mkResult, highThreshold, startVoltage, endVoltage, lastN]
      · intro htrue
        exact absurd (by simpa [mkResult] using htrue) (by simp [hrf])
      · intro _
        refine ⟨⟨?_, ?_, fun j hj => ?_⟩, ⟨?_, ?_, fun j hj => ?_⟩⟩
        · simpa [mkResult] using H1.1
        · simpa [mkResult] using H1.2.1
        · have := H1.2.2 j (by simpa [mkResult] using hj)
          simpa [mkResult, not_lt] using this
        · simpa [mkResult] using H2.1
        · simpa [mkResult] using H2.2.1
        · have := H2.2.2 j (by simpa [mkResult] using hj)
          simpa [mkResult, not_lt] using this
      · simp [mkResult]
  · rw [analyze_waveform_eq_none_iff]
    unfold startIdx? endIdx?
    by_cases hr : isRising voltage = true
    · simp [hr, List.findIdx?_eq_none_iff, not_lt]
    · have hrf : isRising voltage = false := by
        cases hv : isRising voltage with
        | false => rfl
        | true => exact absurd hv hr
      simp [hrf, List.findIdx?_eq_none_iff, not_lt]

/-- Witness for C1 at the gradual ramp: thresholds and transition time
evaluate as the characterization states. -/
theorem C1_analyze_characterization_witness :
    rampResult.low_threshold =
      min (meanQ (rampVolt.take 10)) (meanQ (lastN 10 rampVolt)) +
        (1 / 10 : ℚ) *
          (max (meanQ (rampVolt.take 10)) (meanQ (lastN 10 rampVolt)) -
            min (meanQ (rampVolt.take 10)) (meanQ (lastN 10 rampVolt))) ∧
    rampResult.transition_time =
      vAt stepTime rampResult.end_idx - vAt stepTime rampResult.start_idx :=
  ⟨(((C1_analyze_characterization stepTime rampVolt (by decide)).1
      rampResult (by decide)).2.1),
   (((C1_analyze_characterization stepTime rampVolt (by decide)).1
      rampResult (by decide)).2.2.2.2.2)⟩

/-- C5 (counterexample): on the instantaneous step waveform the analysis
succeeds while `start_index = end_index = 10`: the claimed strict
inequality `start_index < end_index` fails on the code. -/
theorem C5_counterexample :
    analyze_waveform stepTime stepVolt = some stepResult ∧
    ¬ stepResult.start_idx < stepResult.end_idx :=
  ⟨by decide, by decide⟩

/-- C5 (amended): for every input on which `analyze_waveform` succeeds,
the returned thresholds satisfy `low_threshold ≤ high_threshold` and the
main-transition indices satisfy `start_index ≤ end_index` (equality
occurs when one sample crosses both thresholds at once). -/
theorem C5_amended_invariants (time voltage : List ℚ) (r : WaveResult)
    (h : analyze_waveform time voltage = some r) :
    r.low_threshold ≤ r.high_threshold ∧ r.start_idx ≤ r.end_idx := by
  obtain ⟨s, e, hs, he, rfl⟩ := analyze_waveform_eq_some_iff.mp h
  refine ⟨?_, ?_⟩
  · simpa [mkResult] using lowThreshold_le_highThreshold voltage
  · simpa [mkResult] using startIdx_le_endIdx hs he

/-- Witness for the amended C5 at the step waveform. -/
theorem C5_amended_invariants_witness :
    stepResult.low_threshold ≤ stepResult.high_threshold ∧
    stepResult.start_idx ≤ stepResult.end_idx :=
  C5_amended_invariants stepTime stepVolt stepResult (by decide)

/-! ## The bounce scan: fold/specification equivalence -/

theorem bounceOpenB_closeB_exclusive (v : List ℚ) (thr : ℚ) (rising : Bool)
    (i : ℕ) (ho : bounceOpenB v thr rising i = true)
    (hc : bounceCloseB v thr rising i = true) : False := by
  unfold bounceOpenB at ho
  unfold bounceCloseB at hc
  cases rising <;> simp only [Bool.false_eq_true, if_false, if_true,
    decide_eq_true_eq] at ho hc <;> linarith [ho.1, hc.1]

theorem getLastD_mem {l : List ℕ} (d : ℕ) (h : l ≠ []) : l.getLastD d ∈ l := by
  rw [List.getLastD_eq_getLast?, List.getLast?_eq_getLast l h]
  exact List.getLast_mem h

theorem bounceFold_eq_spec (v : List ℚ) (thr : ℚ) (rising : Bool) (e : ℕ)
    (k : ℕ) :
    (List.range' (e + 1) k).foldl (bounceStep v thr rising) ([], 0, 0) =
      (specBounceRegions v thr rising e k,
       ((List.range' (e + 1) k).filter (bounceOpenB v thr rising)).length,
       ((List.range' (e + 1) k).filter (bounceOpenB v thr rising)).getLastD 0) := by
  unfold specBounceRegions
  induction k with
  | zero => simp
  | succ k ih =>
    rw [List.range'_1_concat, List.foldl_append, List.filterMap_append,
      List.filter_append, ih]
    have hie : e + 1 + k - e = k + 1 := by omega
    simp only [List.filterMap_cons, List.filterMap_nil, List.filter_cons,
      List.filter_nil, List.foldl_cons, List.foldl_nil, hie]
    rw [List.range'_1_concat, List.filter_append]
    by_cases ho : bounceOpenB v thr rising (e + 1 + k) = true
    · have hc : bounceCloseB v thr rising (e + 1 + k) = false := by
        cases hcb : bounceCloseB v thr rising (e + 1 + k) with
        | false => rfl
        | true =>
          exact (bounceOpenB_closeB_exclusive v thr rising _ ho hcb).elim
      simp [bounceStep, ho, hc, List.getLastD_concat, List.filter_cons]
    · by_cases hc : bounceCloseB v thr rising (e + 1 + k) = true
      · by_cases h0 :
          (List.range' (e + 1) k).filter (bounceOpenB v thr rising) = []
        · simp [bounceStep, ho, hc, h0, List.filter_cons]
        · have hlen : 0 <
              ((List.range' (e + 1) k).filter (bounceOpenB v thr rising)).length :=
            List.length_pos.mpr h0
          simp [bounceStep, ho, hc, h0, hlen, List.filter_cons]
      · simp [bounceStep, ho, hc, List.filter_cons]

theorem detect_bounce_eq_spec (voltage time : List ℚ) (end_idx : ℕ)
    (high low : ℚ) (rising : Bool) :
    detect_bounce voltage time end_idx high low rising =
      specBounceRegions voltage (if rising then high else low) rising end_idx
        (voltage.length - end_idx - 2) := by
  show ((List.range' (end_idx + 1) (voltage.length - end_idx - 2)).foldl
    (bounceStep voltage (if rising then high else low) rising) ([], 0, 0)).1 = _
  rw [bounceFold_eq_spec]

theorem specBounceRegions_sound {v : List ℚ} {thr : ℚ} {rising : Bool}
    {e k : ℕ} {p : ℕ × ℕ} (hp : p ∈ specBounceRegions v thr rising e k) :
    e < p.1 ∧ p.1 < p.2 ∧ p.2 < e + 1 + k ∧
      bounceOpenB v thr rising p.1 = true ∧
      bounceCloseB v thr rising p.2 = true := by
  unfold specBounceRegions at hp
  rw [List.mem_filterMap] at hp
  obtain ⟨i, hi, hf⟩ := hp
  rw [List.mem_range'] at hi
  obtain ⟨j, hj, hij⟩ := hi
  split at hf
  next h =>
    obtain ⟨hc, hne⟩ := h
    injection hf with hf
    subst hf
    have hmem := List.mem_filter.mp (getLastD_mem 0 hne)
    obtain ⟨hrange, hob⟩ := hmem
    rw [List.mem_range'] at hrange
    obtain ⟨j', hj', hij'⟩ := hrange
    have hne' : ((List.range' (e + 1) (i - e)).filter
        (bounceOpenB v thr rising)).getLastD 0 ≠ i := by
      intro hEq
      rw [hEq] at hob
      exact bounceOpenB_closeB_exclusive v thr rising i hob hc
    dsimp only
    refine ⟨by omega, by omega, by omega, hob, hc⟩
  next h => exact absurd hf (by simp)

/-- C6: for every input on which `analyze_waveform` succeeds, every
bounce region `(s, e)` in the returned `bounce_regions` list satisfies
`s > end_index` and `e > s`. -/
theorem C6_bounce_region_indices (time voltage : List ℚ) (r : WaveResult)
    (h : analyze_waveform time voltage = some r) :
    ∀ p ∈ r.bounce_regions, r.end_idx < p.1 ∧ p.1 < p.2 := by
  obtain ⟨s, e, hs, he, rfl⟩ := analyze_waveform_eq_some_iff.mp h
  intro p hp
  have hregions : (mkResult time voltage s e).bounce_regions =
      detect_bounce voltage time e (highThreshold voltage)
        (lowThreshold voltage) (isRising voltage) := by
    simp [mkResult]
  rw [hregions, detect_bounce_eq_spec] at hp
  have hsound := specBounceRegions_sound hp
  have hend : (mkResult time voltage s e).end_idx = e := by simp [mkResult]
  rw [hend]
  exact ⟨hsound.1, hsound.2.1⟩

/-- Witness for C6 at the first bounce region of the three-dip waveform. -/
theorem C6_bounce_region_indices_witness :
    bounceResult.end_idx < (12, 13).1 ∧ (12, 13).1 < (12, 13).2 :=
  C6_bounce_region_indices bounceTime bounceVolt bounceResult (by decide)
    (12, 13) (by decide)

/-- C4: for every successful analysis the bounce scan considers only
indices strictly after `end_index`; each returned region opens where the
voltage falls back across the relevant threshold having been on the far
side of it and closes where it crosses back (rising against
`high_threshold`, falling symmetrically against `low_threshold`);
`bounce_count` is the number of regions and `bounce_duration` the sum of
the per-region `time[end] - time[start]`; and the whole region list
coincides with the declarative `specBounceRegions` description. -/
theorem C4_bounce_scan (time voltage : List ℚ) (r : WaveResult)
    (h : analyze_waveform time voltage = some r) :
    r.bounce_regions =
      specBounceRegions voltage
        (if r.is_rising then r.high_threshold else r.low_threshold)
        r.is_rising r.end_idx (voltage.length - r.end_idx - 2) ∧
    (∀ p ∈ r.bounce_regions,
      r.end_idx < p.1 ∧ p.1 < p.2 ∧
      (r.is_rising = true →
        (vAt voltage p.1 < r.high_threshold ∧
          r.high_threshold ≤ vAt voltage (p.1 - 1)) ∧
        (r.high_threshold ≤ vAt voltage p.2 ∧
          vAt voltage (p.2 - 1) < r.high_threshold)) ∧
      (r.is_rising = false →
        (r.low_threshold < vAt voltage p.1 ∧
          vAt voltage (p.1 - 1) ≤ r.low_threshold) ∧
        (vAt voltage p.2 ≤ r.low_threshold ∧
          r.low_threshold < vAt voltage (p.2 - 1)))) ∧
    r.bounce_count = r.bounce_regions.length ∧
    r.bounce_duration =
      (r.bounce_regions.map (fun p => vAt time p.2 - vAt time p.1)).sum := by
  obtain ⟨s, e, hs, he, rfl⟩ := analyze_waveform_eq_some_iff.mp h
  have hregions : (mkResult time voltage s e).bounce_regions =
      detect_bounce voltage time e (highThreshold voltage)
        (lowThreshold voltage) (isRising voltage) := by
    simp [mkResult]
  refine ⟨?_, ?_, ?_, ?_⟩
  · rw [hregions, detect_bounce_eq_spec]
    simp [mkResult]
  · intro p hp
    rw [hregions, detect_bounce_eq_spec] at hp
    have hsound := specBounceRegions_sound hp
    obtain ⟨h1, h2, h3, hob, hcb⟩ := hsound
    have hend : (mkResult time voltage s e).end_idx = e := by simp [mkResult]
    refine ⟨hend ▸ h1, h2, fun hrise => ?_, fun hrise => ?_⟩
    · have hrise' : isRising voltage = true := by
        simpa [mkResult] using hrise
      rw [hrise'] at hob hcb
      unfold bounceOpenB at hob
      unfold bounceCloseB at hcb
      simp only [if_true, if_pos, decide_eq_true_eq] at hob hcb
      constructor <;> simp [mkResult] <;> tauto
    · have hrise' : isRising voltage = false := by
        simpa [mkResult] using hrise
      rw [hrise'] at hob hcb
      unfold bounceOpenB at hob
      unfold bounceCloseB at hcb
      simp only [Bool.false_eq_true, if_false, decide_eq_true_eq] at hob hcb
      constructor <;> simp [mkResult] <;> tauto
  · simp [mkResult]
  · simp [mkResult]

/-- Witness for C4 at the three-dip waveform: three bounce regions with
total duration the sum of the three dip durations. -/
theorem C4_bounce_scan_witness :
    analyze_waveform bounceTime bounceVolt = some bounceResult ∧
    bounceResult.bounce_count = 3 ∧
    bounceResult.bounce_count = bounceResult.bounce_regions.length ∧
    bounceResult.bounce_duration =
      (vAt bounceTime 13 - vAt bounceTime 12) +
        ((vAt bounceTime 17 - vAt bounceTime 15) +
          (vAt bounceTime 20 - vAt bounceTime 19)) :=
  ⟨by decide, by decide,
   (C4_bounce_scan bounceTime bounceVolt bounceResult (by decide)).2.2.1,
   by decide⟩

/-! ## Binary block framing: digit and frame lemmas -/

theorem decDigits_length (d : ℕ) : ∀ n, (decDigits d n).length = d := by
  induction d with
  | zero => intro n; rfl
  | succ d ih => intro n; simp [decDigits, ih]

theorem decDigits_all_digits (d : ℕ) :
    ∀ n, (decDigits d n).all isDigitByte = true := by
  induction d with
  | zero => intro n; rfl
  | succ d ih =>
    intro n
    have h10 : n % 10 < 10 := Nat.mod_lt n (by omega)
    simp [decDigits, ih, isDigitByte]
    omega

theorem decDigits_foldl (d : ℕ) :
    ∀ n acc, (decDigits d n).foldl (fun a b => 10 * a + (b - 48)) acc =
      acc * 10 ^ d + n % 10 ^ d := by
  induction d with
  | zero => intro n acc; simp [decDigits, Nat.mod_one]
  | succ d ih =>
    intro n acc
    rw [decDigits, List.foldl_append, ih]
    simp only [List.foldl_cons, List.foldl_nil]
    have h1 : n % (10 * 10 ^ d) / 10 = n / 10 % 10 ^ d :=
      Nat.mod_mul_right_div_self n 10 (10 ^ d)
    have h2 : n % (10 * 10 ^ d) % 10 = n % 10 :=
      Nat.mod_mod_of_dvd n ⟨10 ^ d, rfl⟩
    have h3 : 10 * (n % (10 * 10 ^ d) / 10) + n % (10 * 10 ^ d) % 10 =
        n % (10 * 10 ^ d) := Nat.div_add_mod (n % (10 * 10 ^ d)) 10
    have hp : 10 ^ (d + 1) = 10 * 10 ^ d := by ring
    rw [hp]
    have h48 : 48 + n % 10 - 48 = n % 10 := by omega
    rw [h48]
    nlinarith [h1, h2, h3]

theorem decVal?_decDigits {d n : ℕ} (hd : 1 ≤ d) (hn : n < 10 ^ d) :
    decVal? (decDigits d n) = some n := by
  have hne : decDigits d n ≠ [] := by
    intro h
    have := decDigits_length d n
    rw [h] at this
    simp at this
    omega
  rw [decVal?, if_pos ⟨hne, decDigits_all_digits d n⟩, decDigits_foldl]
  simp [Nat.mod_eq_of_lt hn]

theorem digitVal?_digit {d : ℕ} (hd : d ≤ 9) : digitVal? (48 + d) = some d := by
  have hdig : isDigitByte (48 + d) = true := by
    simp [isDigitByte]
    omega
  rw [digitVal?, decVal?, if_pos (by simp [hdig])]
  simp

theorem mkFrame_length (d : ℕ) (payload : List ℕ) :
    (mkFrame d payload).length = 2 + d + payload.length := by
  simp [mkFrame, decDigits_length]
  omega

theorem mkFrame_getD_one (d : ℕ) (payload : List ℕ) :
    (mkFrame d payload).getD 1 0 = 48 + d := rfl

theorem mkFrame_take (d : ℕ) (payload : List ℕ) :
    (mkFrame d payload).take (2 + d) =
      35 :: (48 + d) :: decDigits d payload.length := by
  show (35 :: (48 + d) :: (decDigits d payload.length ++ payload)).take (2 + d) = _
  have h : 2 + d = (d + 1) + 1 := by omega
  rw [h]
  simp only [List.take_succ_cons]
  congr 1
  congr 1
  exact List.take_left' (decDigits_length d payload.length)

theorem mkFrame_drop (d : ℕ) (payload : List ℕ) :
    (mkFrame d payload).drop (2 + d) = payload := by
  show (35 :: (48 + d) :: (decDigits d payload.length ++ payload)).drop (2 + d) = _
  have h : 2 + d = (d + 1) + 1 := by omega
  rw [h]
  simp only [List.drop_succ_cons]
  exact List.drop_left' (decDigits_length d payload.length)

/-! ## Binary block framing: the read loop on a well-formed frame -/

theorem stepChunk_pre {d : ℕ} {payload : List ℕ} (hd1 : 1 ≤ d) (hd9 : d ≤ 9)
    (hN : payload.length < 10 ^ d) (s : RecvState) (c t : List ℕ)
    (happ : (s.response ++ c) ++ t = mkFrame d payload) (hc : c ≠ [])
    (hinv : s.headerRead = true → s.dataLength = payload.length) :
    ∃ s', stepChunk s c = some s' ∧ s'.response = s.response ++ c ∧
      (s'.headerRead = true → s'.dataLength = payload.length) ∧
      (2 + d ≤ (s.response ++ c).length → s'.headerRead = true) := by
  by_cases hh : s.headerRead = true
  · refine ⟨⟨s.response ++ c, s.headerRead, s.dataLength⟩, ?_, rfl,
      fun _ => hinv hh, fun _ => hh⟩
    rw [stepChunk, if_neg (by simp [hh])]
  · have hh' : s.headerRead = false := by
      cases hv : s.headerRead with
      | false => rfl
      | true => exact absurd hv hh
    have hrne : s.response ++ c ≠ [] := by
      intro hnil
      exact hc (List.append_eq_nil.mp hnil).2
    obtain ⟨r', hcons⟩ : ∃ r', s.response ++ c = 35 :: r' := by
      cases hv : s.response ++ c with
      | nil => exact absurd hv hrne
      | cons a r' =>
        refine ⟨r', ?_⟩
        rw [hv] at happ
        have ha : a = 35 := by
          have := congrArg (fun l => l.headD 0) happ
          simpa [mkFrame] using this
        rw [ha]
    have hmem : 35 ∈ s.response ++ c := by rw [hcons]; exact List.mem_cons_self _ _
    have hidx : (s.response ++ c).indexOf 35 = 0 := by
      rw [hcons]
      exact List.indexOf_cons_self 35 r'
    have hgetD1 : 2 ≤ (s.response ++ c).length →
        (s.response ++ c).getD 1 0 = 48 + d := by
      intro hlen
      have h1 : ((s.response ++ c) ++ t).getD 1 0 = (s.response ++ c).getD 1 0 :=
        List.getD_append _ _ _ _ (by omega)
      rw [happ, mkFrame_getD_one] at h1
      omega
    have htake : 2 + d ≤ (s.response ++ c).length →
        ((s.response ++ c).drop 2).take d = decDigits d payload.length := by
      intro hlen
      have h2 : (s.response ++ c).take (2 + d) =
          (mkFrame d payload).take (2 + d) := by
        calc (s.response ++ c).take (2 + d)
            = ((((s.response ++ c) ++ t).take
                (s.response ++ c).length)).take (2 + d) := by
              rw [List.take_left]
          _ = ((s.response ++ c) ++ t).take
                (min (2 + d) (s.response ++ c).length) := by
              rw [List.take_take]
          _ = ((s.response ++ c) ++ t).take (2 + d) := by
              rw [Nat.min_eq_left hlen]
          _ = (mkFrame d payload).take (2 + d) := by rw [happ]
      rw [List.take_drop, h2, mkFrame_take]
      rfl
    by_cases hbig : 2 + d ≤ (s.response ++ c).length
    · refine ⟨⟨s.response ++ c, true, payload.length⟩, ?_, rfl,
        fun _ => rfl, fun _ => rfl⟩
      rw [stepChunk]
      simp only [hidx]
      rw [if_pos ⟨hh', hmem⟩, if_pos (show 0 + 2 < (s.response ++ c).length by omega)]
      rw [hgetD1 (by omega), digitVal?_digit hd9]
      dsimp only
      rw [if_pos (show 0 + 2 + d ≤ (s.response ++ c).length by omega)]
      rw [show (s.response ++ c).drop (0 + 2) = (s.response ++ c).drop 2 by norm_num]
      rw [htake hbig, decVal?_decDigits hd1 hN]
    · by_cases h2 : 0 + 2 < (s.response ++ c).length
      · refine ⟨⟨s.response ++ c, false, s.dataLength⟩, ?_, rfl,
          fun hAbs => by simp at hAbs, fun hlen => absurd hlen hbig⟩
        rw [stepChunk]
        simp only [hidx]
        rw [if_pos ⟨hh', hmem⟩, if_pos h2]
        rw [hgetD1 (by omega), digitVal?_digit hd9]
        dsimp only
        rw [if_neg (show ¬ 0 + 2 + d ≤ (s.response ++ c).length by omega)]
      · refine ⟨⟨s.response ++ c, false, s.dataLength⟩, ?_, rfl,
          fun hAbs => by simp at hAbs, fun hlen => absurd hlen hbig⟩
        rw [stepChunk]
        simp only [hidx]
        rw [if_pos ⟨hh', hmem⟩, if_neg h2]

theorem runRead_pre {d : ℕ} {payload : List ℕ} (hd1 : 1 ≤ d) (hd9 : d ≤ 9)
    (hN : payload.length < 10 ^ d) :
    ∀ (cs : List (List ℕ)) (s : RecvState),
      (∀ c ∈ cs, c ≠ []) →
      s.response ++ cs.join = mkFrame d payload →
      (s.headerRead = true → s.dataLength = payload.length) →
      (2 + d ≤ s.response.length → s.headerRead = true) →
      runRead cs s = some ⟨mkFrame d payload, true, payload.length⟩ := by
  intro cs
  induction cs with
  | nil =>
    intro s h1 h2 h3 h4
    have hresp : s.response = mkFrame d payload := by simpa using h2
    have hlenf : 2 + d ≤ s.response.length := by
      rw [hresp, mkFrame_length]
      omega
    have hh := h4 hlenf
    have hdl := h3 hh
    obtain ⟨resp, hr, dl⟩ := s
    simp only at hresp hh hdl
    rw [runRead, hresp, hh, hdl]
  | cons c cs ih =>
    intro s h1 h2 h3 h4
    have hc : c ≠ [] := h1 c (List.mem_cons_self c cs)
    have happ : (s.response ++ c) ++ cs.join = mkFrame d payload := by
      rw [List.append_assoc]
      simpa using h2
    obtain ⟨s', hstep, hresp', hinv1, hinv2⟩ :=
      stepChunk_pre hd1 hd9 hN s c cs.join happ hc h3
    rw [runRead, if_neg hc, hstep]
    dsimp only
    by_cases hbreak : s'.headerRead = true ∧ s'.dataLength + 11 ≤ s'.response.length
    · rw [if_pos hbreak]
      obtain ⟨hb1, hb2⟩ := hbreak
      have hdl := hinv1 hb1
      have hjoin_nil : cs.join = [] := by
        have hlens := congrArg List.length happ
        simp only [List.length_append, mkFrame_length] at hlens
        have hlen2 : s'.response.length = s.response.length + c.length := by
          rw [hresp']
          simp
        have hz : cs.join.length = 0 := by omega
        exact List.eq_nil_of_length_eq_zero hz
      have hrespf : s'.response = mkFrame d payload := by
        rw [hresp']
        rw [hjoin_nil] at happ
        simpa using happ
      obtain ⟨resp, hr, dl⟩ := s'
      simp only at hdl hrespf hb1
      rw [hrespf, hb1, hdl]
    · rw [if_neg hbreak]
      refine ih s' (fun c' hc' => h1 c' (List.mem_cons_of_mem c hc')) ?_ hinv1 ?_
      · rw [hresp', List.append_assoc]
        simpa using h2
      · rw [hresp']
        exact hinv2

theorem extractPayload_frame {d : ℕ} {payload : List ℕ} (hd9 : d ≤ 9) :
    extractPayload ⟨mkFrame d payload, true, payload.length⟩ = some payload := by
  rw [extractPayload]
  rw [if_pos rfl]
  have hidx : (mkFrame d payload).indexOf 35 = 0 :=
    List.indexOf_cons_self 35 _
  simp only [hidx]
  rw [mkFrame_getD_one, digitVal?_digit hd9]
  dsimp only
  rw [show 0 + 2 + d = 2 + d by omega, mkFrame_drop, List.take_length]

theorem capturePayload_frame {d : ℕ} {payload : List ℕ} (hd1 : 1 ≤ d)
    (hd9 : d ≤ 9) (hN : payload.length < 10 ^ d) (chunks : List (List ℕ))
    (hne : ∀ c ∈ chunks, c ≠ []) (hjoin : chunks.join = mkFrame d payload) :
    capturePayload chunks = some payload := by
  rw [capturePayload,
    runRead_pre hd1 hd9 hN chunks ⟨[], false, 0⟩ hne (by simpa using hjoin)
      (fun h => by simp at h) (fun h => by simp at h)]
  exact extractPayload_frame hd9

/-- C3: for every well-formed length-headed binary block (marker byte,
one digit `d`, `d` decimal digits giving the payload byte count, then
the payload) and every way of splitting it into nonempty partial reads,
the read loop of `capture_waveform` extracts exactly the declared number
of payload bytes, byte-identical to the payload extracted from a
single-read delivery of the same block. -/
theorem C3_length_header_framing (d : ℕ) (payload : List ℕ)
    (chunks : List (List ℕ)) (hd1 : 1 ≤ d) (hd9 : d ≤ 9)
    (hN : payload.length < 10 ^ d) (hne : ∀ c ∈ chunks, c ≠ [])
    (hjoin : chunks.join = mkFrame d payload) :
    capturePayload chunks = some payload ∧
    capturePayload [mkFrame d payload] = some payload ∧
    (capturePayload chunks).map List.length = some payload.length := by
  have h1 := capturePayload_frame hd1 hd9 hN chunks hne hjoin
  have h2 := capturePayload_frame hd1 hd9 hN [mkFrame d payload]
    (by
      intro c hc
      simp only [List.mem_singleton] at hc
      rw [hc, mkFrame]
      simp)
    (by simp)
  exact ⟨h1, h2, by rw [h1]; rfl⟩

/-- Witness for C3: the frame `#203` + payload `[1,2,3]` delivered in
three partial reads and in a single read. -/
theorem C3_length_header_framing_witness :
    capturePayload [[35, 50], [48, 51, 1], [2, 3]] = some [1, 2, 3] ∧
    capturePayload [mkFrame 2 [1, 2, 3]] = some [1, 2, 3] ∧
    (capturePayload [[35, 50], [48, 51, 1], [2, 3]]).map List.length = some 3 :=
  C3_length_header_framing 2 [1, 2, 3] [[35, 50], [48, 51, 1], [2, 3]]
    (by decide) (by decide) (by decide) (by decide) (by decide)

/-- C2: running the capture data path on a frame built from raw byte
codes yields exactly the preamble-scaled samples, with
`time[i] = i * x_increment + x_origin` and
`voltage[i] = (code[i] - y_reference) * y_increment + y_origin`. -/
theorem C2_preamble_scaling (pre : Preamble) (codes : List ℕ) (d : ℕ)
    (hd1 : 1 ≤ d) (hd9 : d ≤ 9) (hN : codes.length < 10 ^ d) :
    capture_waveform pre [mkFrame d codes] = some (scaleWaveform pre codes) ∧
    (scaleWaveform pre codes).length = codes.length ∧
    ∀ i, i < codes.length →
      (scaleWaveform pre codes).getD i (0, 0) =
        ((i : ℚ) * pre.x_increment + pre.x_origin,
         (((codes.getD i 0 : ℕ) : ℚ) - pre.y_reference) * pre.y_increment +
           pre.y_origin) := by
  refine ⟨?_, ?_, ?_⟩
  · rw [capture_waveform, capturePayload_frame hd1 hd9 hN [mkFrame d codes]
      (by
        intro c hc
        simp only [List.mem_singleton] at hc
        rw [hc, mkFrame]
        simp)
      (by simp)]
    rfl
  · simp [scaleWaveform]
  · intro i hi
    have hlen : i < (scaleWaveform pre codes).length := by simp [scaleWaveform, hi]
    rw [List.getD_eq_getElem _ _ hlen]
    simp [scaleWaveform]

/-- Witness for C2: the specification's round-trip example decodes codes
`[128, 138, 118]` to voltages `[0, 0.10, -0.10]` at times
`[0, 1e-6, 2e-6]`. -/
theorem C2_preamble_scaling_witness :
    capture_waveform samplePre [mkFrame 1 [128, 138, 118]] =
      some (scaleWaveform samplePre [128, 138, 118]) ∧
    scaleWaveform samplePre [128, 138, 118] =
      [(0, 0), (1 / 1000000, 1 / 10), (2 / 1000000, -(1 / 10))] :=
  ⟨(C2_preamble_scaling samplePre [128, 138, 118] 1 (by decide) (by decide)
      (by decide)).1, by decide⟩

/-- C7 (counterexample): `capture_relay_transition` returns `None` on a
run whose trigger poll never observes `STOP`, and the very same result
on an actuation-failure run and on a capture-failure run — the timeout
outcome is not a distinct result. -/
theorem C7_counterexample :
    capture_relay_transition (⟨false, true, [false, false], some 0⟩ : CaptureEnv ℕ) = none ∧
    capture_relay_transition (⟨false, false, [], some 0⟩ : CaptureEnv ℕ) = none ∧
    capture_relay_transition (⟨false, true, [true], none⟩ : CaptureEnv ℕ) = none :=
  ⟨rfl, rfl, rfl⟩

/-- C7 (amended): when the trigger-status poll never observes the
stopped state within the window, `capture_relay_transition` returns the
sentinel `None` — the same value it returns for actuation failure and
for capture failure; the stages are distinguished only in log output. -/
theorem C7_amended_sentinel {W : Type} (env : CaptureEnv W) :
    (env.polls.any id = false → capture_relay_transition env = none) ∧
    (env.simulateFailure = false → env.actuationOk = false →
      capture_relay_transition env = none) ∧
    (env.wave = none → capture_relay_transition env = none) := by
  obtain ⟨sf, ao, polls, wave⟩ := env
  refine ⟨fun h => ?_, fun h1 h2 => ?_, fun h => ?_⟩ <;>
    simp_all [capture_relay_transition]

/-- Witness for the amended C7 at a concrete timed-out run. -/
theorem C7_amended_sentinel_witness :
    capture_relay_transition (⟨false, true, [false, false, false], some 7⟩ : CaptureEnv ℕ) = none :=
  (C7_amended_sentinel (⟨false, true, [false, false, false], some 7⟩ : CaptureEnv ℕ)).1 rfl

/-- C8: `send_command` appends the line terminator exactly when the
command lacks one and returns a success/failure boolean (true iff
connected and the write succeeded); `query` returns either the decoded
stripped response text or the sentinel `none`; every transport outcome
(disconnection, write failure, timeout, closed socket, exception) is an
explicit branch of the embedding, so neither operation propagates an
exception. -/
theorem C8_transport_sentinels (env : LinkEnv) (command : List Char) :
    (∀ p, (send_command env command).2 = some p →
      (endsWithNl command = true → p = command) ∧
      (endsWithNl command = false → p = command ++ ['\n'])) ∧
    ((send_command env command).1 = true ↔
      env.connected = true ∧ env.sendOutcome = SendOutcome.ok) ∧
    (query env command = none ∨
      ∃ resp, readResponse env.recvEvents [] = some resp ∧ resp ≠ [] ∧
        query env command = some (stripChars resp)) := by
  obtain ⟨conn, so, evs⟩ := env
  refine ⟨?_, ?_, ?_⟩
  · intro p hp
    refine ⟨fun ht => ?_, fun hf => ?_⟩ <;> cases conn <;> cases so <;>
      simp_all [send_command]
  · cases conn <;> cases so <;> simp [send_command]
  · by_cases hc : (send_command ⟨conn, so, evs⟩ command).1 = false
    · left
      simp [query, hc]
    · cases hr : readResponse evs [] with
      | none => left; simp [query, hc, hr]
      | some resp =>
        by_cases he : resp = []
        · left
          simp [query, hc, hr, he]
        · right
          exact ⟨resp, rfl, he, by simp [query, hc, hr, he]⟩

/-- Witness for C8: a terminator-free command gets `\n` appended. -/
theorem C8_transport_sentinels_witness :
    (send_command ⟨true, SendOutcome.ok, []⟩ ['I', 'D', 'N', '?']).2 =
      some ['I', 'D', 'N', '?', '\n'] ∧
    (['I', 'D', 'N', '?', '\n'] : List Char) = ['I', 'D', 'N', '?'] ++ ['\n'] :=
  ⟨by decide,
   ((C8_transport_sentinels ⟨true, SendOutcome.ok, []⟩ ['I', 'D', 'N', '?']).1
      ['I', 'D', 'N', '?', '\n'] (by decide)).2 (by decide)⟩

/-- C9: `set_power` treats an Unknown (`none`) current state distinctly
from a definite `false`: it short-circuits (issuing no state-change
command) exactly when the current state is definite and equal to the
requested one, and with an Unknown current state it always issues the
state-change command instead of concluding the relay is OFF. -/
theorem C9_set_power_unknown (env : TasmotaEnv) (state : Bool) (relay_number : ℕ) :
    ((set_power env state relay_number).2 = [] ↔ env.current = some state) ∧
    (env.current = none →
      (set_power env state relay_number).2 =
        [TasmotaCmd.powerSet relay_number state]) := by
  obtain ⟨cur, rt, hr, pm, vf⟩ := env
  rcases cur with _ | c <;> cases state <;> (try cases c) <;>
    cases rt <;> cases hr <;> cases pm <;> rcases vf with _ | v <;>
    (try cases v) <;> simp [set_power]

/-- Witness for C9 at a concrete Unknown-state environment. -/
theorem C9_set_power_unknown_witness :
    (set_power ⟨none, true, true, true, some true⟩ true 1).2 =
      [TasmotaCmd.powerSet 1 true] :=
  (C9_set_power_unknown ⟨none, true, true, true, some true⟩ true 1).2 rfl

/-- C10: if `get_power_state` reports the relay already in the requested
state, `set_power` returns `True` immediately and issues no `Power`
state-change command, leaving the device's relay state unchanged. -/
theorem C10_set_power_frame (env : TasmotaEnv) (state : Bool) (relay_number : ℕ)
    (h : env.current = some state) :
    set_power env state relay_number = (true, []) := by
  cases state <;> simp [set_power, h]

/-- Witness for C10 at a concrete already-ON environment. -/
theorem C10_set_power_frame_witness :
    set_power ⟨some true, true, true, true, none⟩ true 1 = (true, []) :=
  C10_set_power_frame ⟨some true, true, true, true, none⟩ true 1 rfl

end Onnyx
